import Mathlib

/-!
Shallow embedding of `xhttpc.go` (package `xhttpc`), a convenience layer over
Go's `net/http`.  The development models:

* `url.Values` (Go: `map[string][]string`) as an insertion-ordered association
  list with the `Add` / `Get` / `Encode` operations used by the source;
* the JSON value tree produced by `json.Marshal` / decoded with `UseNumber`
  (JSON marshaling itself is an external primitive, so the embedding starts
  from the decoded tree);
* `toValues` / `addValues`, the recursive flattener;
* `XClient.resolveURL` (including its in-place mutation of the `url.URL`,
  modelled by returning the updated URL alongside the resolved string);
* `XResponse.DecodeJson` / `ReadAll` / `Copy`, with an explicit flag recording
  whether the underlying response body stream was closed;
* `XClient.XDo`'s error classification against the context's done state;
* `XClient.NewMultipartRequest`, with an event trace recording the order of
  close / register / copy per field.
-/

namespace Xhttpc

/-! ## url.Values -/

/-- Go's `url.Values` is `map[string][]string`.  The embedding keeps an
association list with (by construction) unique keys; list order is the key
insertion order, which a Go map does not expose — every observable output of
the source goes through `Encode`, which sorts keys, so this determinism is
unobservable. -/
abbrev Values := List (String × List String)

/-- Go `url.Values.Add`: appends the value to the key's slice, creating the
key if absent (new keys go at the end of the association list). -/
def Values.add : Values → String → String → Values
  | [], k, v => [(k, [v])]
  | (k', l) :: rest, k, v =>
    if k' = k then (k', l ++ [v]) :: rest else (k', l) :: Values.add rest k v

/-- Go `url.Values.Get`: first value associated with the key, `""` when the
key is missing or its slice is empty. -/
def Values.get : Values → String → String
  | [], _ => ""
  | (k', l) :: rest, k => if k' = k then l.headD "" else Values.get rest k

/-- The full value slice stored under a key (`v[key]` on the Go map);
`[]` when absent. -/
def Values.lookup : Values → String → List String
  | [], _ => []
  | (k', l) :: rest, k => if k' = k then l else Values.lookup rest k

/-- Go `url.QueryEscape` restricted to this model: operates on the string's
characters (for the ASCII data this repository passes around this coincides
with the byte-level Go behavior); unreserved characters `A-Z a-z 0-9 - _ . ~`
pass through, space becomes `+`, everything else becomes `%XX` with uppercase
hex digits. -/
def hexDigit (n : Nat) : Char :=
  if n < 10 then Char.ofNat (48 + n) else Char.ofNat (55 + n)

def isUnreservedQueryChar (c : Char) : Bool :=
  (65 ≤ c.toNat && c.toNat ≤ 90) || (97 ≤ c.toNat && c.toNat ≤ 122) ||
  (48 ≤ c.toNat && c.toNat ≤ 57) ||
  c = '-' || c = '_' || c = '.' || c = '~'

def escapeChar (c : Char) : String :=
  if isUnreservedQueryChar c then String.singleton c
  else if c = ' ' then "+"
  else String.singleton '%' ++ String.singleton (hexDigit (c.toNat % 256 / 16)) ++
    String.singleton (hexDigit (c.toNat % 16))

def queryEscape (s : String) : String :=
  s.toList.foldl (fun acc c => acc ++ escapeChar c) ""

/-- Go's byte-wise string order (`s < t` in `sort.Strings`), on the model's
character lists: lexicographic by code point. -/
def charListLe : List Char → List Char → Bool
  | [], _ => true
  | _ :: _, [] => false
  | c :: cs, d :: ds =>
    if c.toNat < d.toNat then true
    else if d.toNat < c.toNat then false
    else charListLe cs ds

def strLe (a b : String) : Bool :=
  charListLe a.toList b.toList

/-- Insertion sort on strings, modelling `sort.Strings` inside
`url.Values.Encode`. -/
def insertSorted (k : String) : List String → List String
  | [] => [k]
  | x :: xs => if strLe k x then k :: x :: xs else x :: insertSorted k xs

def sortStrings (l : List String) : List String :=
  l.foldr insertSorted []

/-- Go `url.Values.Encode`: keys sorted, each value of a key emitted in slice
order as `escape(k)=escape(v)`, parts joined by `&` (keys with an empty slice
contribute nothing). -/
def Values.encode (vs : Values) : String :=
  let ks := sortStrings (vs.map Prod.fst)
  let parts := ks.foldr
    (fun k acc =>
      ((Values.lookup vs k).map (fun v => queryEscape k ++ "=" ++ queryEscape v)) ++ acc)
    []
  String.intercalate "&" parts

/-! ## The JSON value tree

`toValues` marshals its argument with `json.Marshal` and decodes the bytes
into `map[string]interface` with `UseNumber`, so numbers are carried as their
original text.  The embedding starts from that decoded tree.  JSON objects
from `json.Marshal` have unique keys; field order in the model stands for the
(unspecified) Go map iteration order. -/

mutual
inductive Json where
| null : Json
| bool (b : Bool) : Json
| num (s : String) : Json
| str (s : String) : Json
| arr (elems : JsonList) : Json
| obj (fields : JsonFields) : Json
inductive JsonList where
| nil : JsonList
| cons (hd : Json) (tl : JsonList) : JsonList
inductive JsonFields where
| nil : JsonFields
| cons (key : String) (val : Json) (tl : JsonFields) : JsonFields
end

/-- Membership of a `(key, value)` field in a `JsonFields` list. -/
def JsonFields.memPair (k : String) (v : Json) : JsonFields → Prop
  | .nil => False
  | .cons k' v' tl => (k = k' ∧ v = v') ∨ JsonFields.memPair k v tl

/-- Modelled from `fmt.Sprintf(k, mapKey)` as used by `addValues` on nested
objects: the first `%s` / `%v` verb in the parent key is replaced by the child
key; a format with no such verb gets Go's `%!(EXTRA string=...)` suffix.
(Formats using other verbs or literal `%%` escapes do not occur in this
code path's data.) -/
def findVerb : List Char → Option (List Char × List Char)
  | [] => none
  | '%' :: 's' :: rest => some ([], rest)
  | '%' :: 'v' :: rest => some ([], rest)
  | c :: rest => (findVerb rest).map (fun p => (c :: p.1, p.2))

def sprintfKey (format arg : String) : String :=
  match findVerb format.toList with
  | some (pre, post) => String.mk pre ++ arg ++ String.mk post
  | none => format ++ "%!(EXTRA string=" ++ arg ++ ")"

/-- Go `fmt.Sprintf("%v", v)` on the scalar payloads that reach the default
case of `addValues`: strings print raw, `json.Number` prints its text,
booleans print `true`/`false`, and a `nil` interface prints `<nil>`. -/
def scalarString : Json → String
  | .null => "<nil>"
  | .bool b => if b then "true" else "false"
  | .num s => s
  | .str s => s
  | .arr _ => ""
  | .obj _ => ""

mutual
/-- `addValues(values, k, v)` from `xhttpc.go`: slices recurse under the same
key, maps recurse under `fmt.Sprintf(k, mapKey)`, and every other value —
including `nil` — hits the default case `values.Add(k, fmt.Sprintf("%v", v))`. -/
def addValues (values : Values) (k : String) : Json → Values
  | .arr elems => addValuesList values k elems
  | .obj fields => addValuesFields values k fields
  | .null => Values.add values k "<nil>"
  | .bool b => Values.add values k (if b then "true" else "false")
  | .num s => Values.add values k s
  | .str s => Values.add values k s
def addValuesList (values : Values) (k : String) : JsonList → Values
  | .nil => values
  | .cons e rest => addValuesList (addValues values k e) k rest
def addValuesFields (values : Values) (k : String) : JsonFields → Values
  | .nil => values
  | .cons mk mv rest => addValuesFields (addValues values (sprintfKey k mk) mv) k rest
end

/-- The top-level loop of `toValues`: `for k, v := range result`
calls `addValues(values, k, v)` with the field key unchanged. -/
def toValuesTop (values : Values) : JsonFields → Values
  | .nil => values
  | .cons k v rest => toValuesTop (addValues values k v) rest

/-- `toValues(data)` from `xhttpc.go`.  A `nil` argument returns empty values
immediately; otherwise the argument's JSON tree is decoded into
`map[string]interface`, which succeeds exactly when the tree is `null`
(decoding `null` into a map is a no-op) or an object, and fails with the
`encoding/json` unmarshal-type error on a top-level scalar or array. -/
def toValues : Json → Except String Values
  | .null => .ok []
  | .obj fields => .ok (toValuesTop [] fields)
  | _ => .error "json: cannot unmarshal value into Go value of type map"

/-! ### Lemmas about `Values` and the flattener -/

theorem lookup_add (vs : Values) (kA v k : String) :
    Values.lookup (Values.add vs kA v) k =
      if kA = k then Values.lookup vs k ++ [v] else Values.lookup vs k := by
  induction vs with
  | nil =>
    simp only [Values.add, Values.lookup]
    split <;> simp_all [Values.lookup]
  | cons hd tl ih =>
    obtain ⟨k1, l1⟩ := hd
    simp only [Values.add]
    by_cases h1 : k1 = kA
    · subst h1
      simp only [if_pos rfl, Values.lookup]
      by_cases h2 : k1 = k
      · subst h2; simp [Values.lookup]
      · simp [Values.lookup, h2]
    · simp only [if_neg h1, Values.lookup]
      by_cases h2 : k1 = k
      · subst h2
        have : ¬ (kA = k1) := fun h => h1 h.symm
        simp [this]
      · simp [h2, ih]

theorem mem_lookup_add {vs : Values} {k x : String} (kA v : String)
    (h : x ∈ Values.lookup vs k) : x ∈ Values.lookup (Values.add vs kA v) k := by
  rw [lookup_add]
  split
  · exact List.mem_append_left _ h
  · exact h

mutual
theorem mem_lookup_addValues (j : Json) (vs : Values) (kA k x : String)
    (h : x ∈ Values.lookup vs k) : x ∈ Values.lookup (addValues vs kA j) k :=
  match j with
  | .null => by simpa [addValues] using mem_lookup_add kA "<nil>" h
  | .bool b => by simpa [addValues] using mem_lookup_add kA (if b then "true" else "false") h
  | .num s => by simpa [addValues] using mem_lookup_add kA s h
  | .str s => by simpa [addValues] using mem_lookup_add kA s h
  | .arr elems => by simpa [addValues] using mem_lookup_addValuesList elems vs kA k x h
  | .obj fields => by simpa [addValues] using mem_lookup_addValuesFields fields vs kA k x h
theorem mem_lookup_addValuesList (l : JsonList) (vs : Values) (kA k x : String)
    (h : x ∈ Values.lookup vs k) : x ∈ Values.lookup (addValuesList vs kA l) k :=
  match l with
  | .nil => by simpa [addValuesList] using h
  | .cons e rest => by
    simpa [addValuesList] using
      mem_lookup_addValuesList rest (addValues vs kA e) kA k x
        (mem_lookup_addValues e vs kA k x h)
theorem mem_lookup_addValuesFields (fs : JsonFields) (vs : Values) (kA k x : String)
    (h : x ∈ Values.lookup vs k) : x ∈ Values.lookup (addValuesFields vs kA fs) k :=
  match fs with
  | .nil => by simpa [addValuesFields] using h
  | .cons mk mv rest => by
    simpa [addValuesFields] using
      mem_lookup_addValuesFields rest (addValues vs (sprintfKey kA mk) mv) kA k x
        (mem_lookup_addValues mv vs (sprintfKey kA mk) k x h)
end

theorem mem_lookup_toValuesTop :
    ∀ (fs : JsonFields) (vs : Values) (k x : String),
      x ∈ Values.lookup vs k → x ∈ Values.lookup (toValuesTop vs fs) k
  | .nil, vs, k, x, h => by simpa [toValuesTop] using h
  | .cons k' v' tl, vs, k, x, h => by
    simpa [toValuesTop] using
      mem_lookup_toValuesTop tl (addValues vs k' v') k x
        (mem_lookup_addValues v' vs k' k x h)

theorem nil_mem_toValuesTop :
    ∀ (fs : JsonFields) (vs : Values) (k : String),
      JsonFields.memPair k Json.null fs → "<nil>" ∈ Values.lookup (toValuesTop vs fs) k
  | .nil, _, _, h => absurd h (by simp [JsonFields.memPair])
  | .cons k' v' tl, vs, k, h => by
    rcases h with ⟨hk, hv⟩ | h
    · subst hk; subst hv
      have hmem : "<nil>" ∈ Values.lookup (addValues vs k Json.null) k := by
        have heq : Values.lookup (Values.add vs k "<nil>") k =
            Values.lookup vs k ++ ["<nil>"] := by rw [lookup_add]; simp
        simp only [addValues, heq]
        exact List.mem_append_right _ (by simp)
      simpa [toValuesTop] using mem_lookup_toValuesTop tl (addValues vs k Json.null) k "<nil>" hmem
    · simpa [toValuesTop] using nil_mem_toValuesTop tl (addValues vs k' v') k h

/-! ## XResponse: DecodeJson / ReadAll / Copy

The response body is a single-pass byte stream.  The model keeps the stream
symbolically: `Stream.jsonOf j` stands for bytes whose JSON decoding yields
`j`, `Stream.gzipped s` for the gzip compression of stream `s`, and
`Stream.junk` for bytes that are neither a valid gzip stream nor valid JSON.
`encoding/json` and `compress/gzip` are external primitives (out of scope per
the spec), modelled at this level of abstraction. -/

inductive Stream where
| empty : Stream
| jsonOf (j : Json) : Stream
| gzipped (inner : Stream) : Stream
| junk : Stream

/-- A completed HTTP response as seen by `XResponse`: the
`Content-Encoding` header value and the raw body stream. -/
structure Resp where
  contentEncoding : String
  body : Stream

/-- `gzip.NewReader` on a stream: succeeds exactly on a gzip stream (reading
its header and exposing the decompressed inner stream); an empty stream gives
`io.EOF`, anything else `gzip: invalid header`. -/
def gzipNewReader : Stream → Except String Stream
  | .gzipped inner => .ok inner
  | .empty => .error "EOF"
  | _ => .error "gzip: invalid header"

/-- `json.NewDecoder(r).Decode(v)` followed by the `io.EOF` swallowing in
`DecodeJson`: an empty stream leaves the target unchanged and is not an
error; a JSON stream replaces the target; gzip bytes or junk are a decode
error. -/
def jsonDecode (s : Stream) (v : Json) : Except String Json :=
  match s with
  | .empty => .ok v
  | .jsonOf j => .ok j
  | .gzipped _ => .error "invalid character"
  | .junk => .error "invalid character"

/-- `XResponse.DecodeJson`.  The second component records whether the
underlying response body stream (`resp.Body`) was closed: the deferred
`r.Close()` closes `reader`, which is `resp.Body` itself in the identity
case but only the `gzip.Reader` wrapper in the gzip case (closing a
`gzip.Reader` does not close its source), and the early return on a
`gzip.NewReader` failure happens before the `defer` is installed. -/
def decodeJson (resp : Resp) (v : Json) : Except String Json × Bool :=
  if resp.contentEncoding = "gzip" then
    match gzipNewReader resp.body with
    | .error e => (.error e, false)
    | .ok inner => (jsonDecode inner v, false)
  else
    (jsonDecode resp.body v, true)

/-- `ioutil.ReadAll` on a stream, returning its byte content (symbolically,
the stream itself). -/
def readAllStream (s : Stream) : Except String Stream := .ok s

/-- `XResponse.ReadAll`, with the same body-closed flag as `decodeJson`. -/
def readAll (resp : Resp) : Except String Stream × Bool :=
  if resp.contentEncoding = "gzip" then
    match gzipNewReader resp.body with
    | .error e => (.error e, false)
    | .ok inner => (readAllStream inner, false)
  else
    (readAllStream resp.body, true)

/-- `XResponse.Copy`: `io.Copy(w, resp.Body)` writes the raw body stream to
the sink and closes nothing.  First component: the bytes delivered to the
sink; second: whether `resp.Body` was closed. -/
def copyResp (resp : Resp) : Stream × Bool :=
  (resp.body, false)

/-! ## XClient.XDo -/

/-- The call context at the moment `XDo` runs its `select` after
`c.Client.Do` returns: whether `ctx.Done()` is closed, and the value of
`ctx.Err()` in that case (`context canceled` or `context deadline
exceeded`).  A context that is done stays done, so one observation covers
both an already-cancelled context and one that expired during the transport
call. -/
structure Ctx where
  done : Bool
  ctxErr : String

/-- `XClient.XDo` with the outcome of the external transport call
(`c.Client.Do(req)`) passed as a parameter: on a transport error it returns
`ctx.Err()` when the context is done, otherwise the transport error
unchanged; a successful response is wrapped and returned. -/
def xDo (ctx : Ctx) (transportResult : Except String Resp) : Except String Resp :=
  match transportResult with
  | .ok r => .ok r
  | .error e => if ctx.done then .error ctx.ctxErr else .error e

/-! ## XClient.resolveURL -/

/-- The subset of Go's `url.URL` that `resolveURL` touches; `urlString`
models `u.String()` for such URLs (no user info, opaque part or fragment). -/
structure URL where
  scheme : String
  host : String
  path : String
  rawQuery : String

def urlString (u : URL) : String :=
  u.scheme ++ "://" ++ u.host ++ u.path ++
    (if u.rawQuery = "" then "" else "?" ++ u.rawQuery)

/-- The first loop of `resolveURL`: for each variadic query, collect its keys
and re-add each key once via `q.Add(k, query.Get(k))` — so only the first
value of a multi-valued key survives. -/
def reAddKeys (acc : Values) (query : Values) : Values :=
  (query.map Prod.fst).foldl (fun a k => Values.add a k (Values.get query k)) acc

def mergeQueries (queries : List Values) : Values :=
  queries.foldl reAddKeys []

/-- `XClient.resolveURL`: overwrites `u.RawQuery` with the re-added call
query, renders the URL, then appends the encoded base query — with `?` if the
(just overwritten) `u.RawQuery` is empty, with `&` otherwise, and not at all
if the base query encodes to the empty string.  The Go function mutates the
caller's `*url.URL`; the model returns the mutated URL as the second
component. -/
def resolveURL (baseQuery : Values) (u : URL) (queries : List Values) : String × URL :=
  let q := mergeQueries queries
  let u' : URL := { u with rawQuery := Values.encode q }
  let baseEnc := Values.encode baseQuery
  let rawURL := urlString u'
  if baseEnc = "" then (rawURL, u')
  else if u'.rawQuery = "" then (rawURL ++ "?" ++ baseEnc, u')
  else (rawURL ++ "&" ++ baseEnc, u')

/-- URL resolution as performed by `XClient.Get` (and `Delete`): the
flattened per-call query is passed as the single variadic argument. -/
def getResolve (baseQuery : Values) (u : URL) (query : Values) : String × URL :=
  resolveURL baseQuery u [query]

/-- URL resolution as performed by `XClient.Post` (and `Put`): `resolveURL`
is called with no variadic queries. -/
def postResolve (baseQuery : Values) (u : URL) : String × URL :=
  resolveURL baseQuery u []

/-! ## XClient.NewMultipartRequest -/

/-- A reader passed to `NewMultipartRequest`.  `isFile` corresponds to the
`*os.File` type assertion; `closable` to the `io.Closer` assertion;
`failsAfterClose` records whether `Read` fails once `Close` has been called
(true for `*os.File`, whose reads return `file already closed`). -/
structure MReader where
  content : List Nat
  isFile : Bool
  fileName : String
  closable : Bool
  failsAfterClose : Bool

/-- One part of the assembled multipart body. -/
structure MPart where
  key : String
  fileName : Option String
  content : List Nat
deriving DecidableEq

/-- Trace events of `NewMultipartRequest`, in execution order. -/
inductive MEvent where
| closedReader (key : String) : MEvent
| createdFilePart (key fileName : String) : MEvent
| createdFieldPart (key : String) : MEvent
| copied (key : String) (bytes : List Nat) : MEvent
deriving DecidableEq

/-- The body of `NewMultipartRequest`'s loop, per field and in the source's
statement order: (1) if the reader is an `io.Closer`, close it; (2) create a
file part (`CreateFormFile`) or a plain field part (`CreateFormField`) —
writes to the backing `bytes.Buffer` cannot fail; (3) `io.Copy` the reader
into the part, which fails if the reader was closed and its reads fail after
close, aborting the whole request with that error. -/
def mpProcess : List (String × MReader) → List MPart → List MEvent →
    Except String (List MPart × List MEvent)
  | [], parts, events => .ok (parts, events)
  | (k, r) :: rest, parts, events =>
    let events1 := events ++ (if r.closable then [MEvent.closedReader k] else [])
    let events2 := events1 ++
      (if r.isFile then [MEvent.createdFilePart k r.fileName] else [MEvent.createdFieldPart k])
    if r.closable && r.failsAfterClose then
      .error "read on closed file"
    else
      mpProcess rest
        (parts ++ [⟨k, if r.isFile then some r.fileName else none, r.content⟩])
        (events2 ++ [MEvent.copied k r.content])

/-- `XClient.NewMultipartRequest`, reduced to its multipart-body assembly:
the resulting parts and the event trace (Go iterates its `values` map in
unspecified order; the model takes the entries as a list). -/
def newMultipartRequest (values : List (String × MReader)) :
    Except String (List MPart × List MEvent) :=
  mpProcess values [] []

/-! ## Supporting lemmas -/

theorem gzipped_ne : ∀ s : Stream, Stream.gzipped s ≠ s
  | .empty, h => by cases h
  | .jsonOf _, h => by cases h
  | .junk, h => by cases h
  | .gzipped inner, h => gzipped_ne inner (by injection h)

theorem add_of_not_mem (vs : Values) (k v : String) (h : k ∉ vs.map Prod.fst) :
    Values.add vs k v = vs ++ [(k, [v])] := by
  induction vs with
  | nil => rfl
  | cons hd tl ih =>
    obtain ⟨k1, l1⟩ := hd
    simp only [List.map_cons, List.mem_cons] at h
    push_neg at h
    simp only [Values.add]
    rw [if_neg (fun hh => h.1 hh.symm)]
    simp [ih h.2]

theorem foldl_add_fresh (f : String → String) :
    ∀ (ks : List String) (acc : Values), ks.Nodup →
      (∀ k ∈ ks, k ∉ acc.map Prod.fst) →
      ks.foldl (fun a k => Values.add a k (f k)) acc = acc ++ ks.map (fun k => (k, [f k]))
  | [], acc, _, _ => by simp
  | k :: ks', acc, hnd, hfresh => by
    simp only [List.foldl_cons]
    rw [add_of_not_mem acc k (f k) (hfresh k (by simp))]
    rw [foldl_add_fresh f ks' (acc ++ [(k, [f k])]) (List.nodup_cons.mp hnd).2 ?_]
    · simp
    · intro k' hk'
      simp only [List.map_append, List.map_cons, List.map_nil, List.mem_append,
        List.mem_singleton]
      push_neg
      exact ⟨hfresh k' (List.mem_cons_of_mem _ hk'),
        fun he => (List.nodup_cons.mp hnd).1 (he ▸ hk')⟩

theorem get_of_mem_nodup :
    ∀ vs : Values, (vs.map Prod.fst).Nodup →
      ∀ p ∈ vs, Values.get vs p.1 = p.2.headD ""
  | [], _, p, hp => absurd hp (by simp)
  | (k1, l1) :: rest, hnd, p, hp => by
    simp only [List.map_cons, List.nodup_cons] at hnd
    rcases List.mem_cons.mp hp with rfl | hp'
    · simp [Values.get]
    · have hne : k1 ≠ p.1 := by
        intro he
        exact hnd.1 (he ▸ List.mem_map.mpr ⟨p, hp', rfl⟩)
      simp only [Values.get, if_neg hne]
      exact get_of_mem_nodup rest hnd.2 p hp'

theorem mergeQueries_single (query : Values) (h : (query.map Prod.fst).Nodup) :
    mergeQueries [query] = query.map (fun p => (p.1, [p.2.headD ""])) := by
  have h1 : mergeQueries [query] =
      (query.map Prod.fst).foldl (fun a k => Values.add a k (Values.get query k)) [] := rfl
  rw [h1, foldl_add_fresh (fun k => Values.get query k) (query.map Prod.fst) [] h (by simp),
    List.nil_append, List.map_map]
  exact List.map_congr_left fun p hp => by
    simp only [Function.comp_apply]
    rw [get_of_mem_nodup query h p hp]

theorem resolveURL_snd (b : Values) (w : URL) (qq : List Values) :
    (resolveURL b w qq).2 = { w with rawQuery := Values.encode (mergeQueries qq) } := by
  simp only [resolveURL]
  split_ifs <;> rfl

/-! ## Claims -/

/-- Claim C1, counterexample: on the mapping with the single key `"k"` bound
to JSON `null`, `toValues` does not omit the key — it emits the entry
`("k", ["<nil>"])`, the rendering `fmt.Sprintf("%v", nil)` produces. -/
theorem toValues_null_counterexample :
    toValues (Json.obj (JsonFields.cons "k" Json.null JsonFields.nil)) =
      Except.ok [("k", ["<nil>"])] ∧
    Values.lookup [("k", ["<nil>"])] "k" ≠ [] :=
  ⟨rfl, by decide⟩

/-- Claim C1 (amended): for every input mapping that contains a key whose
value is JSON `null`, `toValues` emits an entry for that key whose value is
the literal string `"<nil>"` (Go's `fmt` rendering of a nil interface) —
the key is not omitted. -/
theorem toValues_null_amended (fields : JsonFields) (k : String)
    (h : JsonFields.memPair k Json.null fields) :
    ∃ vs, toValues (Json.obj fields) = Except.ok vs ∧ "<nil>" ∈ Values.lookup vs k :=
  ⟨toValuesTop [] fields, rfl, nil_mem_toValuesTop fields [] k h⟩

/-- Witness for the amended Claim C1 at the concrete mapping `\x7b"k": null\x7d`. -/
theorem toValues_null_amended_witness :
    ∃ vs, toValues (Json.obj (JsonFields.cons "k" Json.null JsonFields.nil)) =
      Except.ok vs ∧ "<nil>" ∈ Values.lookup vs "k" :=
  toValues_null_amended (JsonFields.cons "k" Json.null JsonFields.nil) "k"
    (Or.inl ⟨rfl, rfl⟩)

/-- Claim C2, counterexample: `Copy` never closes the response body, and
under `Content-Encoding: gzip` both `DecodeJson` and `ReadAll` close only the
`gzip.Reader` wrapper, leaving the underlying body stream open. -/
theorem response_close_counterexample :
    (copyResp ⟨"", Stream.jsonOf Json.null⟩).2 = false ∧
    (decodeJson ⟨"gzip", Stream.gzipped (Stream.jsonOf Json.null)⟩ Json.null).2 = false ∧
    (readAll ⟨"gzip", Stream.gzipped Stream.empty⟩).2 = false :=
  ⟨rfl, rfl, rfl⟩

/-- Claim C2 (amended): the underlying response body stream is closed exactly
by `DecodeJson` and `ReadAll` under identity encoding; under gzip encoding
only the decompressor wrapper is closed (the body stays open), and `Copy`
closes nothing on any response. -/
theorem response_close_amended (resp : Resp) (v : Json) :
    (decodeJson resp v).2 = (if resp.contentEncoding = "gzip" then false else true) ∧
    (readAll resp).2 = (if resp.contentEncoding = "gzip" then false else true) ∧
    (copyResp resp).2 = false := by
  refine ⟨?_, ?_, rfl⟩
  · by_cases h : resp.contentEncoding = "gzip"
    · simp only [decodeJson, h, if_true]
      cases gzipNewReader resp.body <;> simp
    · simp [decodeJson, h]
  · by_cases h : resp.contentEncoding = "gzip"
    · simp only [readAll, h, if_true]
      cases gzipNewReader resp.body <;> simp
    · simp [readAll, h]

/-- Claim C3: `NewMultipartRequest` closes every closable reader *before*
creating its form part and before copying it.  On a file reader (whose reads
fail after close — `*os.File`) the copy therefore fails and the whole request
construction errors, so the bytes never reach the multipart body; on a
closable reader whose reads survive close, the trace shows the close event
preceding the registration event. -/
theorem multipart_close_before_register :
    newMultipartRequest [("f", ⟨[1, 2, 3], true, "a.txt", true, true⟩)] =
      Except.error "read on closed file" ∧
    newMultipartRequest [("g", ⟨[7], false, "", true, false⟩)] =
      Except.ok ([⟨"g", none, [7]⟩],
        [MEvent.closedReader "g", MEvent.createdFieldPart "g", MEvent.copied "g" [7]]) :=
  ⟨rfl, rfl⟩

/-- Claim C4, counterexample: a top-level scalar and a top-level sequence are
perfectly representable trees, yet `toValues` fails on them (the decode into
`map[string]interface` cannot accept them). -/
theorem toValues_toplevel_counterexample :
    toValues (Json.str "x") =
      Except.error "json: cannot unmarshal value into Go value of type map" ∧
    toValues (Json.arr (JsonList.cons (Json.num "1") JsonList.nil)) =
      Except.error "json: cannot unmarshal value into Go value of type map" :=
  ⟨rfl, rfl⟩

/-- Claim C4 (amended): `toValues` succeeds exactly when the marshalled input
is JSON `null` (including a nil argument) or a string-keyed mapping; a
top-level scalar or sequence fails with the unmarshal-type error, and on
mappings flattening itself never fails. -/
theorem toValues_ok_iff (j : Json) :
    (∃ vs, toValues j = Except.ok vs) ↔ (j = Json.null ∨ ∃ fs, j = Json.obj fs) :=
  match j with
  | .null => by simp [toValues]
  | .bool b => by simp [toValues]
  | .num s => by simp [toValues]
  | .str s => by simp [toValues]
  | .arr e => by simp [toValues]
  | .obj fs => by simp [toValues]

/-- Claim C5: `DecodeJson` round-trips — a body that is the JSON encoding of
`j` decodes to `j` under identity encoding and under
`Content-Encoding: gzip` with a gzip-compressed body; an empty (or
gzip-of-empty) body is not an error and leaves the target unchanged. -/
theorem decodeJson_roundtrip (j v : Json) :
    (decodeJson ⟨"", Stream.jsonOf j⟩ v).1 = Except.ok j ∧
    (decodeJson ⟨"gzip", Stream.gzipped (Stream.jsonOf j)⟩ v).1 = Except.ok j ∧
    (decodeJson ⟨"", Stream.empty⟩ v).1 = Except.ok v ∧
    (decodeJson ⟨"gzip", Stream.gzipped Stream.empty⟩ v).1 = Except.ok v :=
  ⟨rfl, rfl, rfl, rfl⟩

/-- Claim C6: `resolveURL` emits the call query first and appends the base
query: when both encode non-empty the result is
`scheme://host path ? callQuery & baseQuery`; concretely, base `a=1` with
call `b=2` on `http://h/p` yields `http://h/p?b=2&a=1`, a key in both groups
appears twice, `?` is used when the overwritten URL query is empty, and an
empty base query appends nothing. -/
theorem resolveURL_call_then_base (base : Values) (u : URL) (qs : List Values)
    (hb : Values.encode base ≠ "") (hc : Values.encode (mergeQueries qs) ≠ "") :
    (resolveURL base u qs).1 =
      u.scheme ++ "://" ++ u.host ++ u.path ++ "?" ++
        Values.encode (mergeQueries qs) ++ "&" ++ Values.encode base ∧
    (resolveURL [("a", ["1"])] ⟨"http", "h", "/p", ""⟩ [[("b", ["2"])]]).1 =
      "http://h/p?b=2&a=1" ∧
    (resolveURL [("k", ["1"])] ⟨"http", "h", "/p", ""⟩ [[("k", ["2"])]]).1 =
      "http://h/p?k=2&k=1" ∧
    (resolveURL [("a", ["1"])] ⟨"http", "h", "/p", ""⟩ []).1 = "http://h/p?a=1" ∧
    (resolveURL [] ⟨"http", "h", "/p", ""⟩ [[("b", ["2"])]]).1 = "http://h/p?b=2" := by
  refine ⟨?_, by decide, by decide, by decide, by decide⟩
  simp [resolveURL, urlString, hb, hc, String.append_assoc]

/-- Witness for Claim C6 at base `a=1`, call `b=2`, URL `http://h/p`. -/
theorem resolveURL_call_then_base_witness :
    (resolveURL [("a", ["1"])] ⟨"http", "h", "/p", ""⟩ [[("b", ["2"])]]).1 =
      "http" ++ "://" ++ "h" ++ "/p" ++ "?" ++
        Values.encode (mergeQueries [[("b", ["2"])]]) ++ "&" ++
        Values.encode [("a", ["1"])] ∧
    (resolveURL [("a", ["1"])] ⟨"http", "h", "/p", ""⟩ [[("b", ["2"])]]).1 =
      "http://h/p?b=2&a=1" ∧
    (resolveURL [("k", ["1"])] ⟨"http", "h", "/p", ""⟩ [[("k", ["2"])]]).1 =
      "http://h/p?k=2&k=1" ∧
    (resolveURL [("a", ["1"])] ⟨"http", "h", "/p", ""⟩ []).1 = "http://h/p?a=1" ∧
    (resolveURL [] ⟨"http", "h", "/p", ""⟩ [[("b", ["2"])]]).1 = "http://h/p?b=2" :=
  resolveURL_call_then_base [("a", ["1"])] ⟨"http", "h", "/p", ""⟩ [[("b", ["2"])]]
    (by decide) (by decide)

/-- Claim C7: `Copy` always delivers the raw body stream to the sink — on a
gzip-encoded response it yields the compressed stream unchanged (which is
never equal to its decompressed payload), whereas `ReadAll` on the same
response yields the decompressed payload. -/
theorem copy_raw_bytes (s : Stream) (e : String) (b : Stream) :
    (copyResp ⟨"gzip", Stream.gzipped s⟩).1 = Stream.gzipped s ∧
    Stream.gzipped s ≠ s ∧
    (readAll ⟨"gzip", Stream.gzipped s⟩).1 = Except.ok s ∧
    (copyResp ⟨e, b⟩).1 = b :=
  ⟨rfl, gzipped_ne s, rfl, rfl⟩

/-- Claim C8: when the transport call fails, `XDo` returns the context's
cancellation/deadline error if the context is done, and the transport error
unchanged otherwise. -/
theorem xDo_ctx_error (ctx : Ctx) (e : String) :
    (ctx.done = true → xDo ctx (Except.error e) = Except.error ctx.ctxErr) ∧
    (ctx.done = false → xDo ctx (Except.error e) = Except.error e) := by
  constructor <;> intro h <;> simp [xDo, h]

/-- Witness for Claim C8 on a cancelled and on a live context. -/
theorem xDo_ctx_error_witness :
    xDo ⟨true, "context canceled"⟩ (Except.error "transport failure") =
      Except.error "context canceled" ∧
    xDo ⟨false, ""⟩ (Except.error "transport failure") =
      Except.error "transport failure" :=
  ⟨(xDo_ctx_error ⟨true, "context canceled"⟩ "transport failure").1 rfl,
   (xDo_ctx_error ⟨false, ""⟩ "transport failure").2 rfl⟩

/-- Claim C9: the per-call query loop of `resolveURL` re-adds each key once
via `Get`, so only the first value of each key survives (for a key-unique
query the merged result maps every key to the singleton of its first value);
concretely `a=[1,2]` resolves to `?a=1`, and keys inserted as `b` then `a`
are emitted in sorted order `a=1&b=2`. -/
theorem resolveURL_first_value_sorted (query : Values)
    (h : (query.map Prod.fst).Nodup) :
    mergeQueries [query] = query.map (fun p => (p.1, [p.2.headD ""])) ∧
    (getResolve [] ⟨"http", "h", "/p", ""⟩ [("a", ["1", "2"])]).1 = "http://h/p?a=1" ∧
    (getResolve [] ⟨"http", "h", "/p", ""⟩ [("b", ["2"]), ("a", ["1"])]).1 =
      "http://h/p?a=1&b=2" :=
  ⟨mergeQueries_single query h, by decide, by decide⟩

/-- Witness for Claim C9 at the multi-valued query `a=[1,2]`. -/
theorem resolveURL_first_value_sorted_witness :
    mergeQueries [[("a", ["1", "2"])]] = [("a", ["1"])] ∧
    (getResolve [] ⟨"http", "h", "/p", ""⟩ [("a", ["1", "2"])]).1 = "http://h/p?a=1" ∧
    (getResolve [] ⟨"http", "h", "/p", ""⟩ [("b", ["2"]), ("a", ["1"])]).1 =
      "http://h/p?a=1&b=2" :=
  resolveURL_first_value_sorted [("a", ["1", "2"])] (by decide)

/-- Claim C10: `resolveURL` unconditionally overwrites the caller-supplied
URL's `RawQuery` with the encoded per-call query — independently of whatever
query the URL carried; with no variadic queries (the `Post`/`Put` call shape)
the pre-existing query is erased, and in the `Get` shape it is replaced by
the per-call query. -/
theorem resolveURL_overwrites_rawQuery (base : Values) (u : URL) (qs : List Values) :
    (resolveURL base u qs).2 = { u with rawQuery := Values.encode (mergeQueries qs) } ∧
    (postResolve base u).2.rawQuery = "" ∧
    (getResolve [] ⟨"http", "h", "/p", "x=9"⟩ [("b", ["2"])]).2.rawQuery = "b=2" ∧
    (getResolve [] ⟨"http", "h", "/p", "x=9"⟩ [("b", ["2"])]).1 = "http://h/p?b=2" := by
  refine ⟨resolveURL_snd base u qs, ?_, by decide, by decide⟩
  rw [postResolve, resolveURL_snd]
  rfl

end Xhttpc
